import Mathlib

/-!
Verification of the dwell-time derivation and aggregation pipeline of
google_history.py (class GoogleHistoryAnalyzer).

Modelling conventions:
- strings are embedded as lists of characters (Str); Python str.split on a
  dot and str.join are embedded as splitOnDot and joinDot below;
- pandas float64 seconds are embedded as exact rationals; a NaN cell is
  embedded as Option.none, matching pandas semantics at every operation the
  pipeline performs: diff gives NaN in the first row, clip leaves NaN in
  place, and sum skips NaN (skipna default, so NaN contributes zero);
- a DataFrame of history rows is embedded as a list of records in row order;
- timestamps are the integer microsecond epoch values of the time_usec
  column; month and year are derived from the day number by the standard
  proleptic Gregorian civil-calendar computation, as pandas DatetimeIndex
  does for timestamps parsed with unit us;
- the url column and urlparse(url).netloc belong to the external loader
  collaborator, so an input row carries the extracted domain_full directly;
- the time_spent_m, time_spent_h, time_spent_d columns are the pure
  rescalings of time_spent_s by 60, 3600 and 86400; they are embedded as
  derived views of the seconds column, which the code computes after
  clipping; the time_spent_bins column is touched by no claim and is left
  out of the record;
- the KeyError raised by the groupby-column dictionary lookup in
  time_by_domain is embedded as the ConfigError of the error taxonomy;
- pandas sort_values is embedded as insertion sort with the corresponding
  lexicographic key comparison; the claims under verification constrain only
  the ordering, the multiset of rows, and the sums, all of which are
  independent of which sorting algorithm realises the ordering.
-/

set_option maxRecDepth 1000000

abbrev Str := List Char

/-- Python str.split on a single dot: always returns at least one part,
and the parts are the maximal dot-free segments, with empty parts kept. -/
def splitOnDot : Str → List Str
  | [] => [[]]
  | c :: rest =>
    match splitOnDot rest with
    | [] => [[]]
    | p :: ps => if c = '.' then [] :: p :: ps else (c :: p) :: ps

/-- Python dot.join: interleave a dot between the parts. -/
def joinDot : List Str → Str
  | [] => []
  | [p] => p
  | p :: q :: ps => p ++ '.' :: joinDot (q :: ps)

/-- The domain normalizer simple_domain of google_history.py, lines 107-120:
split the full host on dots; one part is returned as-is, two parts are
rejoined, more than two parts are rejoined with the leftmost part dropped.
The Python function falls through to an implicit None when the split
produces no part at all, which cannot happen (splitOnDot_ne_nil), so the
final branch below corresponds exactly to the branch for more than two
parts. -/
def simple_domain (domain_full : Str) : Str :=
  let parts := splitOnDot domain_full
  if parts.length = 1 then domain_full
  else if parts.length = 2 then joinDot parts
  else joinDot (parts.drop 1)

/-- The literal newtab domain dropped by process, line 82. -/
def newtabStr : Str := "newtab".toList

/-- One raw history row as handed to process: the time_usec column value and
the host part of the url column. Extracting the host from the url via
urlparse(url).netloc, line 77, is standard-library url-authority parsing by
the external loader collaborator and is not re-modelled here; a raw row
therefore carries the extracted host directly. -/
structure RawEntry where
  time_usec : Int
  domain_full : Str
deriving DecidableEq

/-- One processed history record: the columns of the DataFrame after
process has run, lines 65-105, restricted to the columns the claims read. -/
structure Record where
  time_usec : Int
  domain_full : Str
  domain : Str
  month : Int
  year : Int
  time_spent_s : Option ℚ
deriving DecidableEq

/-- Derived minutes column, line 99: the seconds column divided by 60,
computed after clipping; NaN stays NaN. -/
def Record.time_spent_m (r : Record) : Option ℚ := r.time_spent_s.map (fun v => v / 60)

/-- Derived hours column, line 100. -/
def Record.time_spent_h (r : Record) : Option ℚ := r.time_spent_m.map (fun v => v / 60)

/-- Derived days column, line 101. -/
def Record.time_spent_d (r : Record) : Option ℚ := r.time_spent_h.map (fun v => v / 24)

/-- Year and month of a proleptic Gregorian day number (days since the epoch
1970-01-01), the standard civil-from-days computation used to embed the
pandas DatetimeIndex month and year columns of lines 85-86. -/
def civilOfDays (z0 : Int) : Int × Int :=
  let z := z0 + 719468
  let era : Int := z.fdiv 146097
  let doe : Int := z - era * 146097
  let yoe : Int := (doe - doe.fdiv 1460 + doe.fdiv 36524 - doe.fdiv 146096).fdiv 365
  let y : Int := yoe + era * 400
  let doy : Int := doe - (365 * yoe + yoe.fdiv 4 - yoe.fdiv 100)
  let mp : Int := (5 * doy + 2).fdiv 153
  let m : Int := mp + (if mp < 10 then 3 else -9)
  (if m ≤ 2 then y + 1 else y, m)

/-- Calendar year of a microsecond epoch timestamp, line 86. -/
def year_of_usec (u : Int) : Int := (civilOfDays (u.fdiv 86400000000)).1

/-- Calendar month of a microsecond epoch timestamp, line 85. -/
def month_of_usec (u : Int) : Int := (civilOfDays (u.fdiv 86400000000)).2

/-- Rows kept by process line 82: the rows whose normalized domain is not
the literal newtab. -/
def retained (rows : List RawEntry) : List RawEntry :=
  rows.filter (fun e => decide (simple_domain e.domain_full ≠ newtabStr))

/-- The seconds value the diff of line 93 assigns to a row: the code takes
the negated forward difference of the timestamp column, so a row receives
the timestamp of the previous row minus its own timestamp, converted from
microseconds to seconds. -/
def usecDeltaSec (prev cur : Int) : ℚ := ((prev - cur : Int) : ℚ) / 1000000

/-- Build the processed records of lines 74-93 from the retained rows,
threading the timestamp of the previous row: the first row has no previous
timestamp and its diff cell is NaN (none); every later row receives the
negated forward difference in seconds. -/
def attachDeltas (prev : Option Int) : List RawEntry → List Record
  | [] => []
  | e :: rest =>
    { time_usec := e.time_usec
      domain_full := e.domain_full
      domain := simple_domain e.domain_full
      month := month_of_usec e.time_usec
      year := year_of_usec e.time_usec
      time_spent_s := prev.map (fun p => usecDeltaSec p e.time_usec) } :: attachDeltas (some e.time_usec) rest

/-- The derivation stage of process, lines 74-93: extract domains, drop the
newtab rows, attach month and year, and compute the raw per-row deltas. -/
def derive (rows : List RawEntry) : List Record := attachDeltas none (retained rows)

/-- The default single-page ceiling, class attribute, line 32. -/
def default_domain_clip_time_spent : ℚ := 600

/-- The per-domain ceiling overrides, class attribute, lines 35-40. -/
def custom_domain_clip_time_spent : List (Str × ℚ) :=
  [("meet.google.com".toList, 10800), ("youtube.com".toList, 3600),
   ("netflix.com".toList, 10800), ("hulu.com".toList, 10800)]

/-- One pass of the override loop of clip_time_spent, lines 152-155: rows of
the given domain have their seconds cell clipped from above at the bound;
all other rows, and NaN cells, are left untouched. -/
def clipRecord (d : Str) (b : ℚ) (r : Record) : Record :=
  if r.domain = d then { r with time_spent_s := r.time_spent_s.map (fun v => min v b) } else r

/-- Apply one override row-wise across the frame. -/
def clipStep (d : Str) (b : ℚ) (rs : List Record) : List Record := rs.map (clipRecord d b)

/-- The final statement of clip_time_spent, lines 158-160: rows whose domain
is not an override key are clipped at the default bound. -/
def clipDefault (keys : List Str) (b : ℚ) (rs : List Record) : List Record :=
  rs.map (fun r => if r.domain ∈ keys then r else { r with time_spent_s := r.time_spent_s.map (fun v => min v b) })

/-- clip_time_spent, lines 145-160: loop over the override map applying each
per-domain clip, then clip every row of a non-override domain at the
default bound. Parametrised by the policy, as the class attributes are the
one configuration the source ships. -/
def clip_time_spent (overrides : List (Str × ℚ)) (default_bound : ℚ) (rs : List Record) : List Record :=
  clipDefault (overrides.map Prod.fst) default_bound
    (overrides.foldl (fun acc p => clipStep p.1 p.2 acc) rs)

/-- The whole process method, lines 65-105, on the shipped clipping policy:
derivation followed by clipping. The minutes, hours and days columns are the
derived views Record.time_spent_m, Record.time_spent_h, Record.time_spent_d
of the clipped seconds column, and the bins column is read by no claim. -/
def process (rows : List RawEntry) : List Record :=
  clip_time_spent custom_domain_clip_time_spent default_domain_clip_time_spent (derive rows)

/-- The error taxonomy entry for an invalid group-by value: the dictionary
lookup on line 199 raises a KeyError for any groupby value other than the
two recognized names, which the error taxonomy of the design calls
ConfigError. -/
inductive ConfigError where
  | invalid_groupby (groupby : Str)
deriving DecidableEq

/-- The two DataFrame columns a group key can be drawn from. -/
inductive GroupCol where
  | domain
  | domain_full
deriving DecidableEq

/-- The groupby-name dictionary of line 199, sending the name domain to the
domain column and the name subdomain to the domain_full column; any other
name misses the dictionary. -/
def groupby_col (groupby : Str) : Option GroupCol :=
  if groupby = "domain".toList then some GroupCol.domain
  else if groupby = "subdomain".toList then some GroupCol.domain_full
  else none

/-- Read the grouping column of a record. -/
def colVal : GroupCol → Record → Str
  | GroupCol.domain, r => r.domain
  | GroupCol.domain_full, r => r.domain_full

/-- A group key: the month and year components are present exactly when
include_month added the month and year columns to the groupby columns,
lines 202-204. -/
structure GroupKey where
  month : Option Int
  year : Option Int
  key : Str
deriving DecidableEq

/-- The group key of a record for the chosen grouping columns. -/
def keyOf (include_month : Bool) (c : GroupCol) (r : Record) : GroupKey :=
  { month := if include_month then some r.month else none
    year := if include_month then some r.year else none
    key := colVal c r }

/-- One output row of time_by_domain: the group key columns and the four
summed duration columns of line 208. -/
structure AggRow where
  month : Option Int
  year : Option Int
  key : Str
  time_spent_s : ℚ
  time_spent_m : ℚ
  time_spent_h : ℚ
  time_spent_d : ℚ
deriving DecidableEq

/-- pandas column sum with the default skipna: NaN cells contribute zero. -/
def optSum (l : List (Option ℚ)) : ℚ := (l.map (fun o => o.getD 0)).sum

/-- date_filter_df, lines 122-143: keep rows at or after date_start and at
or before date_end, each bound independently optional and inclusive. -/
def date_filter_df (date_start date_end : Option Int) (rs : List Record) : List Record :=
  let rs1 := match date_start with
    | none => rs
    | some d => rs.filter (fun r => decide (d ≤ r.time_usec))
  match date_end with
  | none => rs1
  | some d => rs1.filter (fun r => decide (r.time_usec ≤ d))

/-- A timestamp lies in the (optional, inclusive) date range. -/
def in_date_range (date_start date_end : Option Int) (t : Int) : Prop :=
  (∀ d ∈ date_start, d ≤ t) ∧ (∀ d ∈ date_end, t ≤ d)

instance (date_start date_end : Option Int) (t : Int) :
    Decidable (in_date_range date_start date_end t) :=
  inferInstanceAs (Decidable (And _ _))

/-- The filter stages of time_by_domain, lines 185-196: the date filters,
then the domain filter, then the subdomain filter. -/
def filtered_records (rs : List Record) (domains subdomains : Option (List Str))
    (date_start date_end : Option Int) : List Record :=
  let f1 := date_filter_df date_start date_end rs
  let f2 := match domains with
    | none => f1
    | some ds => f1.filter (fun r => decide (r.domain ∈ ds))
  match subdomains with
  | none => f2
  | some ss => f2.filter (fun r => decide (r.domain_full ∈ ss))

/-- The groupby-sum of lines 205-208: one output row per distinct group key
occurring in the filtered frame, carrying the skipna sums of the four
duration columns over the rows of that group. -/
def groupRows (include_month : Bool) (c : GroupCol) (rs : List Record) : List AggRow :=
  ((rs.map (keyOf include_month c)).dedup).map (fun k =>
    let grp := rs.filter (fun r => decide (keyOf include_month c r = k))
    { month := k.month
      year := k.year
      key := k.key
      time_spent_s := optSum (grp.map Record.time_spent_s)
      time_spent_m := optSum (grp.map Record.time_spent_m)
      time_spent_h := optSum (grp.map Record.time_spent_h)
      time_spent_d := optSum (grp.map Record.time_spent_d) })

/-- The sort key of line 214: descending by summed seconds. -/
def sortLe (a b : AggRow) : Prop := b.time_spent_s ≤ a.time_spent_s

/-- The sort key of line 212: ascending by year, then ascending by month,
then descending by summed seconds. -/
def sortLeMonth (a b : AggRow) : Prop :=
  a.year.getD 0 < b.year.getD 0 ∨
    (a.year.getD 0 = b.year.getD 0 ∧
      (a.month.getD 0 < b.month.getD 0 ∨
        (a.month.getD 0 = b.month.getD 0 ∧ b.time_spent_s ≤ a.time_spent_s)))

instance : DecidableRel sortLe :=
  fun a b => inferInstanceAs (Decidable (b.time_spent_s ≤ a.time_spent_s))

instance : DecidableRel sortLeMonth :=
  fun a b => inferInstanceAs (Decidable (Or _ _))

instance : IsTotal AggRow sortLe :=
  ⟨fun a b => le_total b.time_spent_s a.time_spent_s⟩

instance : IsTrans AggRow sortLe :=
  ⟨fun _ _ _ h1 h2 => le_trans h2 h1⟩

instance : IsTotal AggRow sortLeMonth := by
  constructor
  intro a b
  unfold sortLeMonth
  rcases lt_trichotomy (a.year.getD 0) (b.year.getD 0) with hy | hy | hy
  · exact Or.inl (Or.inl hy)
  · rcases lt_trichotomy (a.month.getD 0) (b.month.getD 0) with hm | hm | hm
    · exact Or.inl (Or.inr ⟨hy, Or.inl hm⟩)
    · rcases le_total b.time_spent_s a.time_spent_s with hs | hs
      · exact Or.inl (Or.inr ⟨hy, Or.inr ⟨hm, hs⟩⟩)
      · exact Or.inr (Or.inr ⟨hy.symm, Or.inr ⟨hm.symm, hs⟩⟩)
    · exact Or.inr (Or.inr ⟨hy.symm, Or.inl hm⟩)
  · exact Or.inr (Or.inl hy)

instance : IsTrans AggRow sortLeMonth := by
  constructor
  intro a b c hab hbc
  unfold sortLeMonth at *
  rcases hab with hy1 | ⟨hy1, hm1⟩
  · rcases hbc with hy2 | ⟨hy2, _⟩
    · exact Or.inl (lt_trans hy1 hy2)
    · exact Or.inl (hy2 ▸ hy1)
  · rcases hbc with hy2 | ⟨hy2, hm2⟩
    · exact Or.inl (hy1 ▸ hy2)
    · refine Or.inr ⟨hy1.trans hy2, ?_⟩
      rcases hm1 with hm1 | ⟨hm1, hs1⟩
      · rcases hm2 with hm2 | ⟨hm2, _⟩
        · exact Or.inl (lt_trans hm1 hm2)
        · exact Or.inl (hm2 ▸ hm1)
      · rcases hm2 with hm2 | ⟨hm2, hs2⟩
        · exact Or.inl (hm1 ▸ hm2)
        · exact Or.inr ⟨hm1.trans hm2, le_trans hs2 hs1⟩

/-- time_by_domain, lines 162-220: filter by dates, domains and subdomains,
resolve the groupby column name (a miss is the KeyError, embedded as
ConfigError), group and sum, and sort by the requested key order. The
export branch of lines 217-218 is file output by the external export
collaborator and out of scope; the method returns the frame. -/
def time_by_domain (rs : List Record) (domains subdomains : Option (List Str))
    (groupby : Str) (include_month : Bool) (date_start date_end : Option Int) :
    Except ConfigError (List AggRow) :=
  let f := filtered_records rs domains subdomains date_start date_end
  match groupby_col groupby with
  | none => Except.error (ConfigError.invalid_groupby groupby)
  | some c =>
    let rows := groupRows include_month c f
    Except.ok (if include_month then rows.insertionSort sortLeMonth
               else rows.insertionSort sortLe)

/-- The timestamp the diff pairs a given row index with: no timestamp for
row zero, the previous row of the frame otherwise. -/
def prevTime (l : List RawEntry) (prev : Option Int) (i : Nat) : Option Int :=
  if i = 0 then prev else (l[i-1]?).map RawEntry.time_usec

/-- The three x.com records of the pipeline scenario, in the ascending
timestamp order the claim states: 0, 5 and 650 seconds. -/
def c2RowsAsc : List RawEntry :=
  [⟨0, ("x.com").toList⟩, ⟨5000000, ("x.com").toList⟩, ⟨650000000, ("x.com").toList⟩]

/-- The same three records in the newest-first order the code assumes. -/
def c2RowsDesc : List RawEntry :=
  [⟨650000000, ("x.com").toList⟩, ⟨5000000, ("x.com").toList⟩, ⟨0, ("x.com").toList⟩]

/-- The effective upper bound of a domain under a clipping policy: the
override bound when the domain is an override key, the default otherwise. -/
def clip_bound (overrides : List (Str × ℚ)) (default_bound : ℚ) (d : Str) : ℚ :=
  match overrides.find? (fun p => decide (p.1 = d)) with
  | some p => p.2
  | none => default_bound

/-- The per-record effect of clip_time_spent: cap the non-NaN seconds cell
at the effective bound of the record domain. -/
def clipTo (overrides : List (Str × ℚ)) (default_bound : ℚ) (r : Record) : Record :=
  { r with time_spent_s := r.time_spent_s.map (fun v => min v (clip_bound overrides default_bound r.domain)) }

/-- Three sample records for the clipping witness: a youtube.com record
above its override bound, an a.com record above the default bound, and an
a.com record with a negative delta. -/
def c5Records : List Record :=
  [⟨0, ("youtube.com").toList, ("youtube.com").toList, 1, 1970, some 5000⟩,
   ⟨0, ("a.com").toList, ("a.com").toList, 1, 1970, some 700⟩,
   ⟨0, ("a.com").toList, ("a.com").toList, 1, 1970, some (-7)⟩]

instance {e a : Type} [DecidableEq e] [DecidableEq a] : DecidableEq (Except e a) := fun x y =>
  match x, y with
  | Except.error e1, Except.error e2 =>
    if h : e1 = e2 then Decidable.isTrue (congrArg Except.error h)
    else Decidable.isFalse (fun he => h ((Except.error.injEq _ _).mp he))
  | Except.error _, Except.ok _ => Decidable.isFalse (fun he => Except.noConfusion he)
  | Except.ok _, Except.error _ => Decidable.isFalse (fun he => Except.noConfusion he)
  | Except.ok a1, Except.ok a2 =>
    if h : a1 = a2 then Decidable.isTrue (congrArg Except.ok h)
    else Decidable.isFalse (fun he => h ((Except.ok.injEq _ _).mp he))

/-- The two-domain scenario of the sorting claim: a.com with a total of 100
seconds and b.com with a total of 50 seconds. -/
def c6Records : List Record :=
  [⟨0, ("a.com").toList, ("a.com").toList, 1, 1970, some 100⟩,
   ⟨1, ("b.com").toList, ("b.com").toList, 1, 1970, some 50⟩]

/-- Records for the sum-invariant witness: two groups, a leading record
with a NaN delta, and a negative delta, totalling 605 seconds. -/
def c9Records : List Record :=
  [⟨0, ("a.com").toList, ("a.com").toList, 1, 1970, none⟩,
   ⟨1, ("a.com").toList, ("a.com").toList, 1, 1970, some 7⟩,
   ⟨2, ("b.com").toList, ("b.com").toList, 1, 1970, some 600⟩,
   ⟨3, ("a.com").toList, ("a.com").toList, 1, 1970, some (-2)⟩]

/-- One record for the row-count witness. -/
def c7Records : List Record :=
  [⟨0, ("a.com").toList, ("a.com").toList, 1, 1970, some 5⟩]

/-- C2, amended: the scenario holds for the input order the code assumes,
newest first. Running the full pipeline (delta derivation, clipping with
default bound 600 and no applicable override, aggregation grouped by domain
without month) on three x.com records supplied at timestamps 650s, 5s, 0s
yields per-record time_spent_seconds of none, 600 (clipped from 645) and 5,
and an aggregated total of 605 seconds for x.com, the none contributing 0. -/
theorem claim_pipeline_scenario :
    ((process c2RowsDesc).map Record.time_spent_s = [none, some 600, some 5]) ∧
    ((time_by_domain (process c2RowsDesc) none none ("domain").toList false none none).toOption.map
        (fun l => l.map (fun r => (r.key, r.time_spent_s)))
      = some [(("x.com").toList, 605)]) := by
  constructor <;> with_unfolding_all decide

theorem splitOnDot_ne_nil (s : Str) : splitOnDot s ≠ [] := by
  cases s with
  | nil => simp [splitOnDot]
  | cons c rest =>
    simp only [splitOnDot]
    cases splitOnDot rest with
    | nil => simp
    | cons p ps =>
      by_cases h : c = '.' <;> simp [h]

theorem joinDot_cons_cons (c : Char) (p : Str) (ps : List Str) :
    joinDot ((c :: p) :: ps) = c :: joinDot (p :: ps) := by
  cases ps <;> simp [joinDot]

theorem joinDot_splitOnDot (s : Str) : joinDot (splitOnDot s) = s := by
  induction s with
  | nil => simp [splitOnDot, joinDot]
  | cons c rest ih =>
    simp only [splitOnDot]
    rcases hsplit : splitOnDot rest with _ | ⟨p, ps⟩
    · exact absurd hsplit (splitOnDot_ne_nil rest)
    · rw [hsplit] at ih
      by_cases h : c = '.'
      · subst h
        simpa [joinDot] using ih
      · simp only [h, if_false]
        rw [joinDot_cons_cons, ih]

theorem splitOnDot_length_one_iff (s : Str) :
    (splitOnDot s).length = 1 ↔ '.' ∉ s := by
  induction s with
  | nil => simp [splitOnDot]
  | cons c rest ih =>
    simp only [splitOnDot]
    rcases hsplit : splitOnDot rest with _ | ⟨p, ps⟩
    · exact absurd hsplit (splitOnDot_ne_nil rest)
    · rw [hsplit] at ih
      by_cases h : c = '.'
      · subst h
        simp
      · simpa [h, Ne.symm h] using ih

theorem simple_domain_one_part (s : Str) (h : '.' ∉ s) : simple_domain s = s := by
  have h1 : (splitOnDot s).length = 1 := (splitOnDot_length_one_iff s).mpr h
  simp [simple_domain, h1]

theorem simple_domain_two_parts (s : Str) (h : (splitOnDot s).length = 2) :
    simple_domain s = s := by
  have hj := joinDot_splitOnDot s
  simp [simple_domain, h, hj]

theorem simple_domain_many_parts (s : Str) (h : 2 < (splitOnDot s).length) :
    simple_domain s = joinDot ((splitOnDot s).drop 1) := by
  have h1 : ¬ (splitOnDot s).length = 1 := by omega
  have h2 : ¬ (splitOnDot s).length = 2 := by omega
  simp [simple_domain, h1, h2]

/-- C3: simple_domain splits its argument on dots; a host with no dot, and a
host with exactly two dot-separated parts, come back unchanged; a host with
more than two parts comes back as all parts but the leftmost, rejoined with
dots; in particular a.b.c.d maps to b.c.d, example.com and localhost map to
themselves. -/
theorem claim_simple_domain (s : Str) :
    ('.' ∉ s → simple_domain s = s) ∧
    ((splitOnDot s).length = 2 → simple_domain s = s) ∧
    (2 < (splitOnDot s).length → simple_domain s = joinDot ((splitOnDot s).drop 1)) ∧
    simple_domain ("a.b.c.d").toList = ("b.c.d").toList ∧
    simple_domain ("example.com").toList = ("example.com").toList ∧
    simple_domain ("localhost").toList = ("localhost").toList :=
  ⟨simple_domain_one_part s, simple_domain_two_parts s, simple_domain_many_parts s,
   by decide, by decide, by decide⟩

theorem claim_simple_domain_witness :
    ('.' ∉ ("localhost").toList ∧ simple_domain ("localhost").toList = ("localhost").toList) ∧
    (2 < (splitOnDot ("a.b.c.d").toList).length ∧
      simple_domain ("a.b.c.d").toList = joinDot ((splitOnDot ("a.b.c.d").toList).drop 1)) :=
  ⟨⟨by decide, (claim_simple_domain ("localhost").toList).1 (by decide)⟩,
   ⟨by decide, (claim_simple_domain ("a.b.c.d").toList).2.2.1 (by decide)⟩⟩

theorem attachDeltas_length (prev : Option Int) (l : List RawEntry) :
    (attachDeltas prev l).length = l.length := by
  induction l generalizing prev with
  | nil => rfl
  | cons e rest ih => simp [attachDeltas, ih]

theorem attachDeltas_time_spent (l : List RawEntry) :
    ∀ (prev : Option Int) (i : Nat),
      ((attachDeltas prev l)[i]?).map Record.time_spent_s
        = (l[i]?).map (fun e => (prevTime l prev i).map (fun p => usecDeltaSec p e.time_usec)) := by
  induction l with
  | nil => intro prev i; simp [attachDeltas]
  | cons e rest ih =>
    intro prev i
    cases i with
    | zero => simp [attachDeltas, prevTime]
    | succ j =>
      have hrec := ih (some e.time_usec) j
      simp only [attachDeltas, List.getElem?_cons_succ]
      rw [hrec]
      cases j with
      | zero => simp [prevTime]
      | succ j2 => simp [prevTime]

/-- C1, counterexample: two retained records at ascending timestamps 0 and
five seconds; the claim predicts a dwell of plus five seconds for the
second record, the code derives minus five seconds, the negated value. -/
theorem claim_dwell_formula_cex :
    ((derive [⟨0, ("a.com").toList⟩, ⟨5000000, ("a.com").toList⟩]).map Record.time_spent_s
        = [none, some (-5)]) ∧
    ¬ ((derive [⟨0, ("a.com").toList⟩, ⟨5000000, ("a.com").toList⟩]).map Record.time_spent_s
        = [none, some (((5000000 - 0 : Int) : ℚ) / 1000000)]) := by
  constructor
  · with_unfolding_all decide
  · with_unfolding_all decide

/-- C1, amended: for every loaded record sequence, the derived dwell time of
the retained record at row index i (for every i greater than 0) equals
timestamp of row i minus 1, minus timestamp of row i, expressed in seconds,
in other words the negation of the ascending forward difference; this is
positive for input ordered newest-first, the order of the Takeout export the
code consumes; the first row has no dwell time (NaN, embedded as none). -/
theorem claim_dwell_formula (rows : List RawEntry) (i : Nat) (ri rj : RawEntry)
    (hi : (retained rows)[i]? = some ri) (hj : (retained rows)[i+1]? = some rj) :
    (((derive rows)[i+1]?).map Record.time_spent_s
        = some (some (usecDeltaSec ri.time_usec rj.time_usec))) ∧
    (∀ r0, (derive rows)[0]? = some r0 → r0.time_spent_s = none) := by
  constructor
  · rw [derive, attachDeltas_time_spent (retained rows) none (i+1), hj]
    simp [prevTime, hi]
  · intro r0 h0
    have := attachDeltas_time_spent (retained rows) none 0
    rw [derive] at h0
    rw [h0] at this
    rcases hr : (retained rows)[0]? with _ | e
    · rw [hr] at this; simp at this
    · rw [hr] at this
      simpa [prevTime] using this

theorem claim_dwell_formula_witness :
    ((retained [⟨650000000, ("x.com").toList⟩, ⟨5000000, ("x.com").toList⟩])[0]?
        = some ⟨650000000, ("x.com").toList⟩) ∧
    ((retained [⟨650000000, ("x.com").toList⟩, ⟨5000000, ("x.com").toList⟩])[1]?
        = some ⟨5000000, ("x.com").toList⟩) ∧
    (((derive [⟨650000000, ("x.com").toList⟩, ⟨5000000, ("x.com").toList⟩])[1]?).map
        Record.time_spent_s = some (some (usecDeltaSec 650000000 5000000))) ∧
    usecDeltaSec 650000000 5000000 = 645 :=
  ⟨by decide, by decide,
   (claim_dwell_formula [⟨650000000, ("x.com").toList⟩, ⟨5000000, ("x.com").toList⟩] 0
      ⟨650000000, ("x.com").toList⟩ ⟨5000000, ("x.com").toList⟩ (by decide) (by decide)).1,
   by with_unfolding_all decide⟩

/-- C2, counterexample: on the stated ascending input the code derives
per-record seconds of none, minus 5 and minus 645 (the negated forward
differences, which the upper-bound clip leaves alone), and an aggregated
x.com total of minus 650 seconds, not the claimed none, 5, 600 and 605. -/
theorem claim_pipeline_scenario_cex :
    ((process c2RowsAsc).map Record.time_spent_s = [none, some (-5), some (-645)]) ∧
    ¬ ((process c2RowsAsc).map Record.time_spent_s = [none, some 5, some 600]) ∧
    ((time_by_domain (process c2RowsAsc) none none ("domain").toList false none none).toOption.map
        (fun l => l.map (fun r => (r.key, r.time_spent_s)))
      = some [(("x.com").toList, -650)]) ∧
    ¬ ((time_by_domain (process c2RowsAsc) none none ("domain").toList false none none).toOption.map
        (fun l => l.map (fun r => (r.key, r.time_spent_s)))
      = some [(("x.com").toList, 605)]) := by
  refine ⟨?_, ?_, ?_, ?_⟩ <;> with_unfolding_all decide

/-- C10, counterexample: raw rows a.com at 0s, newtab at 5s, b.com at 20s.
In the ascending reading of the claim the predecessor of the b.com record is
the dropped newtab row, and its dwell should be measured from the nearest
earlier retained record a.com as 20 seconds; the code instead assigns minus
20 seconds (the negated difference), so the stated attribution of the
new-tab dwell to the following retained visit does not hold on the code. -/
theorem claim_newtab_attribution_cex :
    ((derive [⟨0, ("a.com").toList⟩, ⟨5000000, ("newtab").toList⟩, ⟨20000000, ("b.com").toList⟩]).map
        Record.time_spent_s = [none, some (-20)]) ∧
    ¬ ((derive [⟨0, ("a.com").toList⟩, ⟨5000000, ("newtab").toList⟩, ⟨20000000, ("b.com").toList⟩]).map
        Record.time_spent_s = [none, some 20]) := by
  constructor <;> with_unfolding_all decide

/-- C10, amended: newtab records are removed before the inter-visit deltas
are computed, so a record whose immediate raw-input row predecessor was a
dropped newtab record has its delta measured against the nearest earlier
retained row, skipping the newtab row: the delta is that retained row
timestamp minus the record timestamp, in seconds. Under the newest-first
row order the code assumes, the nearest earlier retained row is the
chronologically following retained visit, so the time spent on the dropped
new-tab visit is folded into the retained visit that chronologically
precedes it, not the one that follows it. -/
theorem claim_newtab_attribution (as bs : List RawEntry) (ws : List RawEntry)
    (n v w : RawEntry)
    (hn : simple_domain n.domain_full = newtabStr)
    (hv : simple_domain v.domain_full ≠ newtabStr)
    (hw : retained as = ws ++ [w]) :
    ((derive (as ++ n :: v :: bs))[ws.length + 1]?).map Record.time_spent_s
      = some (some (usecDeltaSec w.time_usec v.time_usec)) := by
  have hret : retained (as ++ n :: v :: bs) = ws ++ w :: v :: retained bs := by
    rw [retained, List.filter_append, ← retained, hw]
    simp [retained, List.filter_cons, hn, hv]
  rw [derive, hret, attachDeltas_time_spent]
  have hv1 : (ws ++ w :: v :: retained bs)[ws.length + 1]? = some v := by
    rw [List.getElem?_append_right (by omega)]
    simp
  have hw1 : (ws ++ w :: v :: retained bs)[ws.length]? = some w := by
    rw [List.getElem?_append_right (by omega)]
    simp
  rw [hv1]
  simp [prevTime, hw1]

theorem claim_newtab_attribution_witness :
    (simple_domain (("newtab").toList) = newtabStr) ∧
    (retained [⟨650000000, ("b.com").toList⟩] = [] ++ [⟨650000000, ("b.com").toList⟩]) ∧
    (((derive ([⟨650000000, ("b.com").toList⟩] ++
          (⟨20000000, ("newtab").toList⟩ : RawEntry) :: (⟨5000000, ("a.com").toList⟩ : RawEntry) :: []))[([] : List RawEntry).length + 1]?).map
        Record.time_spent_s = some (some (usecDeltaSec 650000000 5000000))) ∧
    usecDeltaSec 650000000 5000000 = 645 :=
  ⟨by decide, by decide,
   claim_newtab_attribution [⟨650000000, ("b.com").toList⟩] [] []
     ⟨20000000, ("newtab").toList⟩ ⟨5000000, ("a.com").toList⟩ ⟨650000000, ("b.com").toList⟩
     (by decide) (by decide) (by decide),
   by with_unfolding_all decide⟩

theorem foldl_clipStep_eq_map (ov : List (Str × ℚ)) (rs : List Record) :
    ov.foldl (fun acc p => clipStep p.1 p.2 acc) rs
      = rs.map (fun r => ov.foldl (fun r2 p => clipRecord p.1 p.2 r2) r) := by
  induction ov generalizing rs with
  | nil => simp
  | cons p ov ih =>
    simp only [List.foldl_cons]
    rw [ih, clipStep, List.map_map]
    rfl

theorem clipRecord_domain (d : Str) (b : ℚ) (r : Record) :
    (clipRecord d b r).domain = r.domain := by
  rw [clipRecord]
  by_cases h : r.domain = d <;> simp [h]

theorem foldl_clipRecord_no_match (ov : List (Str × ℚ)) (r : Record)
    (h : ∀ p ∈ ov, p.1 ≠ r.domain) :
    ov.foldl (fun r2 p => clipRecord p.1 p.2 r2) r = r := by
  induction ov with
  | nil => rfl
  | cons p ov ih =>
    have hp : clipRecord p.1 p.2 r = r := by
      rw [clipRecord, if_neg]
      intro he
      exact h p (List.mem_cons_self p ov) he.symm
    simp only [List.foldl_cons, hp]
    exact ih (fun q hq => h q (List.mem_cons_of_mem p hq))

theorem foldl_clipRecord_char (ov : List (Str × ℚ)) (hnd : (ov.map Prod.fst).Nodup)
    (r : Record) :
    ov.foldl (fun r2 p => clipRecord p.1 p.2 r2) r
      = match ov.find? (fun p => decide (p.1 = r.domain)) with
        | some p => { r with time_spent_s := r.time_spent_s.map (fun v => min v p.2) }
        | none => r := by
  induction ov with
  | nil => rfl
  | cons p ov ih =>
    by_cases h : p.1 = r.domain
    · have hfind : (p :: ov).find? (fun q => decide (q.1 = r.domain)) = some p := by
        simp [List.find?_cons, h]
      rw [hfind]
      have hclip : clipRecord p.1 p.2 r
          = { r with time_spent_s := r.time_spent_s.map (fun v => min v p.2) } := by
        rw [clipRecord, if_pos h.symm]
      simp only [List.foldl_cons, hclip]
      apply foldl_clipRecord_no_match
      intro q hq he
      have : p.1 ∈ ov.map Prod.fst := by
        rw [h, ← he]
        exact List.mem_map_of_mem Prod.fst hq
      exact (List.nodup_cons.mp hnd).1 this
    · have hfind : (p :: ov).find? (fun q => decide (q.1 = r.domain))
          = ov.find? (fun q => decide (q.1 = r.domain)) := by
        simp [List.find?_cons, h]
      have hclip : clipRecord p.1 p.2 r = r := by
        rw [clipRecord, if_neg]
        intro he
        exact h he.symm
      rw [hfind]
      simp only [List.foldl_cons, hclip]
      exact ih (List.nodup_cons.mp hnd).2

theorem clip_time_spent_eq_map (ov : List (Str × ℚ)) (db : ℚ) (rs : List Record)
    (hnd : (ov.map Prod.fst).Nodup) :
    clip_time_spent ov db rs = rs.map (clipTo ov db) := by
  rw [clip_time_spent, foldl_clipStep_eq_map, clipDefault, List.map_map]
  apply List.map_congr_left
  intro r _
  simp only [Function.comp]
  rcases hfind : ov.find? (fun p => decide (p.1 = r.domain)) with _ | p
  · have hfold : ov.foldl (fun r2 p => clipRecord p.1 p.2 r2) r = r := by
      rw [foldl_clipRecord_char ov hnd r, hfind]
    have hnotin : r.domain ∉ ov.map Prod.fst := by
      intro hmem
      rcases List.mem_map.mp hmem with ⟨q, hq, he⟩
      have := List.find?_eq_none.mp hfind q hq
      simp [he] at this
    rw [hfold, if_neg hnotin]
    simp only [clipTo, clip_bound, hfind]
  · have hfold : ov.foldl (fun r2 p => clipRecord p.1 p.2 r2) r
        = { r with time_spent_s := r.time_spent_s.map (fun v => min v p.2) } := by
      rw [foldl_clipRecord_char ov hnd r, hfind]
    have hpr : p.1 = r.domain := by
      have := List.find?_some hfind
      simpa using this
    have hin : r.domain ∈ ov.map Prod.fst := by
      rw [← hpr]
      exact List.mem_map_of_mem Prod.fst (List.mem_of_find?_eq_some hfind)
    rw [hfold, if_pos hin]
    simp only [clipTo, clip_bound, hfind]

theorem clip_bound_of_mem (ov : List (Str × ℚ)) (db : ℚ) (d : Str) (b : ℚ)
    (hnd : (ov.map Prod.fst).Nodup) (hmem : (d, b) ∈ ov) :
    clip_bound ov db d = b := by
  induction ov with
  | nil => exact absurd hmem (List.not_mem_nil _)
  | cons p ov ih =>
    rcases List.mem_cons.mp hmem with he | hmem2
    · rw [clip_bound, List.find?_cons, ← he]
      simp
    · by_cases h : p.1 = d
      · exfalso
        have : d ∈ ov.map Prod.fst := by
          have : (d, b).1 ∈ ov.map Prod.fst := List.mem_map_of_mem Prod.fst hmem2
          simpa using this
        rw [← h] at this
        exact (List.nodup_cons.mp hnd).1 this
      · have := ih (List.nodup_cons.mp hnd).2 hmem2
        rw [clip_bound, List.find?_cons] at *
        simpa [h] using this

theorem clip_bound_of_not_mem (ov : List (Str × ℚ)) (db : ℚ) (d : Str)
    (hnotin : d ∉ ov.map Prod.fst) :
    clip_bound ov db d = db := by
  rw [clip_bound]
  have hfind : ov.find? (fun p => decide (p.1 = d)) = none := by
    rw [List.find?_eq_none]
    intro p hp
    simp only [decide_eq_true_eq]
    intro he
    exact hnotin (he ▸ List.mem_map_of_mem Prod.fst hp)
  rw [hfind]

/-- C5: under a clipping policy whose override keys are distinct (a Python
dict guarantees this), clip_time_spent caps each record at the effective
upper bound of its domain: the override bound when the domain has one, the
default bound otherwise. Each non-NaN seconds value becomes its minimum
with that bound, hence is at most the bound afterwards, is unchanged when
already at or below it, and in particular a zero or negative delta passes
through unchanged whenever the bound is nonnegative: there is no lower
bound. -/
theorem claim_clip_policy (ov : List (Str × ℚ)) (db : ℚ) (rs : List Record)
    (hnd : (ov.map Prod.fst).Nodup) :
    clip_time_spent ov db rs = rs.map (clipTo ov db) ∧
    (∀ d b, (d, b) ∈ ov → clip_bound ov db d = b) ∧
    (∀ d, d ∉ ov.map Prod.fst → clip_bound ov db d = db) ∧
    (∀ r ∈ rs, ∀ v : ℚ, r.time_spent_s = some v →
      ((clipTo ov db r).time_spent_s = some (min v (clip_bound ov db r.domain)) ∧
       min v (clip_bound ov db r.domain) ≤ clip_bound ov db r.domain ∧
       (v ≤ clip_bound ov db r.domain → (clipTo ov db r).time_spent_s = some v) ∧
       (v ≤ 0 → 0 ≤ clip_bound ov db r.domain → (clipTo ov db r).time_spent_s = some v))) := by
  refine ⟨clip_time_spent_eq_map ov db rs hnd,
          fun d b hmem => clip_bound_of_mem ov db d b hnd hmem,
          fun d hd => clip_bound_of_not_mem ov db d hd,
          fun r _ v hv => ?_⟩
  have h1 : (clipTo ov db r).time_spent_s = some (min v (clip_bound ov db r.domain)) := by
    rw [clipTo, hv]
    rfl
  refine ⟨h1, min_le_right _ _, fun hle => ?_, fun hv0 hb0 => ?_⟩
  · rw [h1, min_eq_left hle]
  · rw [h1, min_eq_left (le_trans hv0 hb0)]

theorem claim_clip_policy_witness :
    (custom_domain_clip_time_spent.map Prod.fst).Nodup ∧
    clip_time_spent custom_domain_clip_time_spent default_domain_clip_time_spent c5Records
      = c5Records.map (clipTo custom_domain_clip_time_spent default_domain_clip_time_spent) ∧
    (clip_time_spent custom_domain_clip_time_spent default_domain_clip_time_spent c5Records).map
        Record.time_spent_s = [some 3600, some 600, some (-7)] :=
  ⟨by decide,
   (claim_clip_policy custom_domain_clip_time_spent default_domain_clip_time_spent c5Records
      (by decide)).1,
   by decide⟩

theorem mem_attachDeltas (prev : Option Int) (l : List RawEntry) (r : Record)
    (h : r ∈ attachDeltas prev l) :
    ∃ e ∈ l, r.domain = simple_domain e.domain_full ∧ r.domain_full = e.domain_full := by
  induction l generalizing prev with
  | nil => simp [attachDeltas] at h
  | cons e rest ih =>
    rcases List.mem_cons.mp h with he | hrest
    · exact ⟨e, List.mem_cons_self e rest, by rw [he], by rw [he]⟩
    · rcases ih (some e.time_usec) hrest with ⟨e2, he2, hd⟩
      exact ⟨e2, List.mem_cons_of_mem e he2, hd⟩

theorem mem_retained (rows : List RawEntry) (e : RawEntry) (h : e ∈ retained rows) :
    e ∈ rows ∧ simple_domain e.domain_full ≠ newtabStr := by
  have := List.mem_filter.mp h
  exact ⟨this.1, by simpa using this.2⟩

theorem clipTo_fields (ov : List (Str × ℚ)) (db : ℚ) (r : Record) :
    (clipTo ov db r).domain = r.domain ∧ (clipTo ov db r).domain_full = r.domain_full := ⟨rfl, rfl⟩

/-- Every record produced by process preserves the domain fields of some
retained row, and its domain is the normalization of its full host. -/
theorem mem_process (rows : List RawEntry) (r : Record) (h : r ∈ process rows) :
    r.domain ≠ newtabStr ∧ r.domain_full ≠ newtabStr := by
  rw [process, clip_time_spent_eq_map _ _ _ (by decide)] at h
  rcases List.mem_map.mp h with ⟨r0, hr0, he⟩
  rcases mem_attachDeltas none (retained rows) r0 hr0 with ⟨e, he2m, hdom, hfull⟩
  have hne : simple_domain e.domain_full ≠ newtabStr := (mem_retained rows e he2m).2
  subst he
  constructor
  · rw [(clipTo_fields _ _ r0).1, hdom]
    exact hne
  · rw [(clipTo_fields _ _ r0).2, hfull]
    intro heq
    rw [heq] at hne
    exact hne (by decide)

theorem mem_date_filter_df (date_start date_end : Option Int) (rs : List Record)
    (r : Record) (h : r ∈ date_filter_df date_start date_end rs) : r ∈ rs := by
  rw [date_filter_df.eq_def] at h
  cases date_start <;> cases date_end <;> simp at h <;> tauto

theorem mem_filtered_records (rs : List Record) (domains subdomains : Option (List Str))
    (date_start date_end : Option Int) (r : Record)
    (h : r ∈ filtered_records rs domains subdomains date_start date_end) : r ∈ rs := by
  rw [filtered_records.eq_def] at h
  cases domains <;> cases subdomains <;> simp at h <;>
    first
      | exact mem_date_filter_df date_start date_end rs r h
      | exact mem_date_filter_df date_start date_end rs r h.1
      | exact mem_date_filter_df date_start date_end rs r h.1.1

theorem mem_groupRows (include_month : Bool) (c : GroupCol) (rs : List Record)
    (row : AggRow) (h : row ∈ groupRows include_month c rs) :
    ∃ r ∈ rs, keyOf include_month c r
        = { month := row.month, year := row.year, key := row.key } := by
  rw [groupRows] at h
  rcases List.mem_map.mp h with ⟨k, hk, he⟩
  have hk2 : k ∈ rs.map (keyOf include_month c) := List.mem_dedup.mp hk
  rcases List.mem_map.mp hk2 with ⟨r, hr, hkey⟩
  refine ⟨r, hr, ?_⟩
  rw [hkey, ← he]

/-- Rows of a time_by_domain result are rows of the group-and-sum stage on
the filtered frame. -/
theorem mem_time_by_domain (rs : List Record) (domains subdomains : Option (List Str))
    (groupby : Str) (include_month : Bool) (date_start date_end : Option Int)
    (c : GroupCol) (out : List AggRow) (row : AggRow)
    (hg : groupby_col groupby = some c)
    (hout : time_by_domain rs domains subdomains groupby include_month date_start date_end
      = Except.ok out)
    (hrow : row ∈ out) :
    ∃ r ∈ filtered_records rs domains subdomains date_start date_end,
      keyOf include_month c r = { month := row.month, year := row.year, key := row.key } := by
  rw [time_by_domain, hg] at hout
  cases include_month with
  | true =>
    simp only [if_true] at hout
    have : out = (groupRows true c
        (filtered_records rs domains subdomains date_start date_end)).insertionSort sortLeMonth := by
      exact (Except.ok.injEq _ _).mp hout.symm |>.symm ▸ rfl
    rw [this] at hrow
    exact mem_groupRows true c _ row ((List.mem_insertionSort sortLeMonth).mp hrow)
  | false =>
    simp only [if_false] at hout
    have : out = (groupRows false c
        (filtered_records rs domains subdomains date_start date_end)).insertionSort sortLe := by
      exact (Except.ok.injEq _ _).mp hout.symm |>.symm ▸ rfl
    rw [this] at hrow
    exact mem_groupRows false c _ row ((List.mem_insertionSort sortLe).mp hrow)

/-- C4: after process, no retained record has normalized domain equal to the
literal newtab (they are dropped on line 82 before any derivation), and
consequently no aggregation output row of time_by_domain carries the group
key newtab, under either grouping column: a record with full host newtab
would also normalize to newtab and be dropped. -/
theorem claim_no_newtab (rows : List RawEntry) :
    (∀ r ∈ process rows, r.domain ≠ newtabStr) ∧
    (∀ (domains subdomains : Option (List Str)) (groupby : Str) (include_month : Bool)
        (date_start date_end : Option Int) (c : GroupCol) (out : List AggRow),
      groupby_col groupby = some c →
      time_by_domain (process rows) domains subdomains groupby include_month date_start date_end
        = Except.ok out →
      ∀ row ∈ out, row.key ≠ newtabStr) := by
  constructor
  · exact fun r hr => (mem_process rows r hr).1
  · intro domains subdomains groupby include_month date_start date_end c out hg hout row hrow
    rcases mem_time_by_domain (process rows) domains subdomains groupby include_month
      date_start date_end c out row hg hout hrow with ⟨r, hr, hkey⟩
    have hmem : r ∈ process rows :=
      mem_filtered_records (process rows) domains subdomains date_start date_end r hr
    have hkeyval : colVal c r = row.key := by
      have := congrArg GroupKey.key hkey
      simpa [keyOf] using this
    rw [← hkeyval]
    cases c with
    | domain => exact (mem_process rows r hmem).1
    | domain_full => exact (mem_process rows r hmem).2

theorem claim_no_newtab_witness :
    ((⟨5000000, ("a.com").toList, ("a.com").toList, 1, 1970, none⟩ : Record) ∈
        process [⟨0, ("newtab").toList⟩, ⟨5000000, ("a.com").toList⟩]) ∧
    ¬ ((⟨5000000, ("a.com").toList, ("a.com").toList, 1, 1970, none⟩ : Record).domain
        = newtabStr) :=
  ⟨by decide,
   (claim_no_newtab [⟨0, ("newtab").toList⟩, ⟨5000000, ("a.com").toList⟩]).1
     ⟨5000000, ("a.com").toList, ("a.com").toList, 1, 1970, none⟩ (by decide)⟩

/-- C8: calling the aggregator with a groupby value that is neither domain
nor subdomain fails with the ConfigError of the taxonomy (the KeyError of
the dictionary lookup on line 199) instead of returning a frame; for the
two recognized values the call does not fail. -/
theorem claim_groupby_validation (rs : List Record) (domains subdomains : Option (List Str))
    (include_month : Bool) (date_start date_end : Option Int) (groupby : Str) :
    ((groupby ≠ ("domain").toList ∧ groupby ≠ ("subdomain").toList) →
      time_by_domain rs domains subdomains groupby include_month date_start date_end
        = Except.error (ConfigError.invalid_groupby groupby)) ∧
    ((groupby = ("domain").toList ∨ groupby = ("subdomain").toList) →
      ∃ out, time_by_domain rs domains subdomains groupby include_month date_start date_end
        = Except.ok out) := by
  constructor
  · rintro ⟨h1, h2⟩
    rw [time_by_domain]
    have hg : groupby_col groupby = none := by
      rw [groupby_col, if_neg h1, if_neg h2]
    rw [hg]
  · rintro (h | h) <;> subst h
    · rw [time_by_domain]
      exact ⟨_, rfl⟩
    · rw [time_by_domain]
      have hg : groupby_col (("subdomain").toList) = some GroupCol.domain_full := by
        rw [groupby_col, if_neg (by decide), if_pos rfl]
      rw [hg]
      exact ⟨_, rfl⟩

theorem claim_groupby_validation_witness :
    ((("foo").toList ≠ ("domain").toList ∧ ("foo").toList ≠ ("subdomain").toList) ∧
      time_by_domain [] none none (("foo").toList) false none none
        = Except.error (ConfigError.invalid_groupby (("foo").toList))) ∧
    (∃ out, time_by_domain [] none none (("domain").toList) false none none
        = Except.ok out) :=
  ⟨⟨⟨by decide, by decide⟩,
    (claim_groupby_validation [] none none false none none (("foo").toList)).1
      ⟨by decide, by decide⟩⟩,
   (claim_groupby_validation [] none none false none none (("domain").toList)).2
     (Or.inl rfl)⟩

/-- C6: every frame time_by_domain returns is sorted as requested: with
include_month the rows are ascending by year then month with ties broken by
descending summed seconds within each month, without include_month the rows
are descending by summed seconds only. -/
theorem claim_sort_order (rs : List Record) (domains subdomains : Option (List Str))
    (groupby : Str) (date_start date_end : Option Int) :
    (∀ out, time_by_domain rs domains subdomains groupby true date_start date_end
        = Except.ok out → out.Sorted sortLeMonth) ∧
    (∀ out, time_by_domain rs domains subdomains groupby false date_start date_end
        = Except.ok out → out.Sorted sortLe) := by
  constructor <;> intro out hout <;> rw [time_by_domain] at hout <;>
    rcases hg : groupby_col groupby with _ | c <;> rw [hg] at hout
  · exact absurd hout (by simp)
  · simp only [if_true, Except.ok.injEq] at hout
    rw [← hout]
    exact List.sorted_insertionSort sortLeMonth _
  · exact absurd hout (by simp)
  · simp only [if_false, Except.ok.injEq] at hout
    rw [← hout]
    exact List.sorted_insertionSort sortLe _

theorem claim_sort_order_witness :
    (time_by_domain c6Records none none (("domain").toList) false none none
        = Except.ok
          [⟨none, none, ("a.com").toList, 100, 5/3, 1/36, 1/864⟩,
           ⟨none, none, ("b.com").toList, 50, 5/6, 1/72, 1/1728⟩]) ∧
    List.Sorted sortLe
      [(⟨none, none, ("a.com").toList, 100, 5/3, 1/36, 1/864⟩ : AggRow),
       ⟨none, none, ("b.com").toList, 50, 5/6, 1/72, 1/1728⟩] :=
  ⟨by with_unfolding_all decide,
   (claim_sort_order c6Records none none (("domain").toList) none none).2
     [⟨none, none, ("a.com").toList, 100, 5/3, 1/36, 1/864⟩,
      ⟨none, none, ("b.com").toList, 50, 5/6, 1/72, 1/1728⟩]
     (by with_unfolding_all decide)⟩

theorem sum_map_filter_split {α : Type} (f : α → ℚ) (p : α → Bool) (l : List α) :
    ((l.filter p).map f).sum + ((l.filter (fun x => !(p x))).map f).sum = (l.map f).sum := by
  induction l with
  | nil => simp
  | cons a l ih =>
    by_cases h : p a
    · simp only [List.filter_cons, h, Bool.not_true, if_true, List.map_cons, List.sum_cons]
      rw [← ih]
      simp
      ring
    · have h2 : p a = false := Bool.eq_false_iff.mpr h
      simp only [List.filter_cons, h2, Bool.not_false, List.map_cons, List.sum_cons]
      rw [← ih]
      simp
      ring

/-- Summing a quantity group-by-group over a complete, duplicate-free list
of group keys gives the total over the whole list. -/
theorem sum_over_groups {α κ : Type} [DecidableEq κ] (f : α → ℚ) (k : α → κ) :
    ∀ (keys : List κ) (l : List α), keys.Nodup → (∀ x ∈ l, k x ∈ keys) →
      (keys.map (fun key => ((l.filter (fun x => decide (k x = key))).map f).sum)).sum
        = (l.map f).sum := by
  intro keys
  induction keys with
  | nil =>
    intro l _ hcov
    have : l = [] := List.eq_nil_iff_forall_not_mem.mpr
      (fun x hx => absurd (hcov x hx) (List.not_mem_nil _))
    subst this
    simp
  | cons key keys ih =>
    intro l hnd hcov
    have hkeynotin : key ∉ keys := (List.nodup_cons.mp hnd).1
    have hstep : ∀ key2 ∈ keys,
        l.filter (fun x => decide (k x = key2))
          = (l.filter (fun x => !(decide (k x = key)))).filter (fun x => decide (k x = key2)) := by
      intro key2 hkey2
      rw [List.filter_filter]
      apply List.filter_congr
      intro x _
      by_cases hx : k x = key2
      · have hxk : ¬ (k x = key) := by
          intro he
          exact hkeynotin (he ▸ hx ▸ hkey2)
        simp [hx, hxk]
        intro he
        exact hkeynotin (he ▸ hkey2)
      · simp [hx]
    have hrest : (keys.map (fun key2 => ((l.filter (fun x => decide (k x = key2))).map f).sum)).sum
        = (((l.filter (fun x => !(decide (k x = key)))).map f).sum) := by
      have hmapeq : keys.map (fun key2 => ((l.filter (fun x => decide (k x = key2))).map f).sum)
          = keys.map (fun key2 =>
              (((l.filter (fun x => !(decide (k x = key)))).filter
                  (fun x => decide (k x = key2))).map f).sum) := by
        apply List.map_congr_left
        intro key2 hkey2
        rw [hstep key2 hkey2]
      rw [hmapeq]
      apply ih
      · exact (List.nodup_cons.mp hnd).2
      · intro x hx
        have hxl : x ∈ l := (List.mem_filter.mp hx).1
        have hxk : ¬ (k x = key) := by
          have := (List.mem_filter.mp hx).2
          simpa using this
        rcases List.mem_cons.mp (hcov x hxl) with he | hm
        · exact absurd he hxk
        · exact hm
    simp only [List.map_cons, List.sum_cons]
    rw [hrest, sum_map_filter_split f (fun x => decide (k x = key)) l]

/-- The summed seconds of the rows of a group-and-sum stage total the
skipna sum of the seconds column of the input frame. -/
theorem groupRows_sum (include_month : Bool) (c : GroupCol) (rs : List Record) :
    ((groupRows include_month c rs).map AggRow.time_spent_s).sum
      = optSum (rs.map Record.time_spent_s) := by
  rw [groupRows, List.map_map]
  have hcomp : (AggRow.time_spent_s ∘ fun k =>
      ({ month := k.month, year := k.year, key := k.key,
         time_spent_s := optSum (((rs.filter (fun r => decide (keyOf include_month c r = k)))).map Record.time_spent_s),
         time_spent_m := optSum (((rs.filter (fun r => decide (keyOf include_month c r = k)))).map Record.time_spent_m),
         time_spent_h := optSum (((rs.filter (fun r => decide (keyOf include_month c r = k)))).map Record.time_spent_h),
         time_spent_d := optSum (((rs.filter (fun r => decide (keyOf include_month c r = k)))).map Record.time_spent_d) } : AggRow))
      = fun k => ((rs.filter (fun r => decide (keyOf include_month c r = k))).map
          (fun r => (r.time_spent_s).getD 0)).sum := by
    funext k
    simp only [Function.comp]
    rw [optSum, List.map_map]
    rfl
  rw [hcomp]
  have := sum_over_groups (fun r => (Record.time_spent_s r).getD 0) (keyOf include_month c)
    ((rs.map (keyOf include_month c)).dedup) rs (List.nodup_dedup _)
    (fun x hx => List.mem_dedup.mpr (List.mem_map_of_mem _ hx))
  rw [this, optSum, List.map_map]
  rfl

/-- C9: in an unfiltered aggregation without month grouping, the total of
the per-group summed seconds equals the skipna sum of all per-record
clipped deltas: the none cell of the first record contributes zero, every
group key present is counted exactly once, and sorting only permutes the
rows. -/
theorem claim_sum_invariant (rs : List Record) (groupby : Str) (c : GroupCol)
    (svals : List ℚ)
    (hg : groupby_col groupby = some c)
    (hout : (time_by_domain rs none none groupby false none none).toOption.map
        (fun l => l.map AggRow.time_spent_s) = some svals) :
    svals.sum = optSum (rs.map Record.time_spent_s) := by
  rw [time_by_domain, hg] at hout
  have hfilt : filtered_records rs none none none none = rs := rfl
  rw [hfilt] at hout
  have hout2 : ((groupRows false c rs).insertionSort sortLe).map AggRow.time_spent_s
      = svals := by
    have h2 : (some (((groupRows false c rs).insertionSort sortLe).map AggRow.time_spent_s)
        : Option (List ℚ)) = some svals := hout
    exact Option.some.inj h2
  rw [← hout2]
  have hperm : List.Perm ((groupRows false c rs).insertionSort sortLe) (groupRows false c rs) :=
    List.perm_insertionSort sortLe _
  rw [List.Perm.sum_eq (List.Perm.map AggRow.time_spent_s hperm)]
  exact groupRows_sum false c rs

theorem claim_sum_invariant_witness :
    (groupby_col (("domain").toList) = some GroupCol.domain) ∧
    ((time_by_domain c9Records none none (("domain").toList) false none none).toOption.map
        (fun l => l.map AggRow.time_spent_s) = some [600, 5]) ∧
    ([(600 : ℚ), 5].sum = optSum (c9Records.map Record.time_spent_s)) ∧
    optSum (c9Records.map Record.time_spent_s) = 605 :=
  ⟨by decide,
   by with_unfolding_all decide,
   claim_sum_invariant c9Records (("domain").toList) GroupCol.domain [600, 5]
     (by decide) (by with_unfolding_all decide),
   by with_unfolding_all decide⟩

theorem date_filter_df_empty (date_start date_end : Option Int) (rs : List Record)
    (h : ∀ r ∈ rs, ¬ in_date_range date_start date_end r.time_usec) :
    date_filter_df date_start date_end rs = [] := by
  cases date_start with
  | none =>
    cases date_end with
    | none =>
      have : rs = [] := List.eq_nil_iff_forall_not_mem.mpr
        (fun r hr => absurd (by simp [in_date_range]) (h r hr))
      rw [this]
      rfl
    | some d =>
      show rs.filter (fun r => decide (r.time_usec ≤ d)) = []
      rw [List.filter_eq_nil_iff]
      intro r hr
      simp only [decide_eq_true_eq]
      intro hle
      exact h r hr ⟨by simp, by simpa using hle⟩
  | some d1 =>
    cases date_end with
    | none =>
      show rs.filter (fun r => decide (d1 ≤ r.time_usec)) = []
      rw [List.filter_eq_nil_iff]
      intro r hr
      simp only [decide_eq_true_eq]
      intro hle
      exact h r hr ⟨by simpa using hle, by simp⟩
    | some d2 =>
      show (rs.filter (fun r => decide (d1 ≤ r.time_usec))).filter
          (fun r => decide (r.time_usec ≤ d2)) = []
      rw [List.filter_eq_nil_iff]
      intro r hr
      have hmem := List.mem_filter.mp hr
      have h1 : d1 ≤ r.time_usec := by simpa using hmem.2
      simp only [decide_eq_true_eq]
      intro h2
      exact h r hmem.1 ⟨by simpa using h1, by simpa using h2⟩

theorem filtered_records_empty (rs : List Record) (domains subdomains : Option (List Str))
    (date_start date_end : Option Int)
    (h : ∀ r ∈ rs, ¬ in_date_range date_start date_end r.time_usec) :
    filtered_records rs domains subdomains date_start date_end = [] := by
  rw [filtered_records.eq_def]
  rw [date_filter_df_empty date_start date_end rs h]
  cases domains <;> cases subdomains <;> simp

/-- C7: the row count of every successful aggregation equals the number of
distinct group keys among the records surviving the date, domain and
subdomain filters; every emitted row has at least one matching filtered
record, so rows for absent group keys are never emitted; and a date range
that excludes every record yields an empty frame, not an error. -/
theorem claim_row_count (rs : List Record) (domains subdomains : Option (List Str))
    (groupby : Str) (include_month : Bool) (date_start date_end : Option Int)
    (c : GroupCol) (out : List AggRow)
    (hg : groupby_col groupby = some c)
    (hout : time_by_domain rs domains subdomains groupby include_month date_start date_end
      = Except.ok out) :
    out.length = ((filtered_records rs domains subdomains date_start date_end).map
        (keyOf include_month c)).dedup.length ∧
    (∀ row ∈ out, ∃ r ∈ filtered_records rs domains subdomains date_start date_end,
        keyOf include_month c r = { month := row.month, year := row.year, key := row.key }) ∧
    ((∀ r ∈ rs, ¬ in_date_range date_start date_end r.time_usec) → out = []) := by
  have hmem := fun row hrow => mem_time_by_domain rs domains subdomains groupby include_month
    date_start date_end c out row hg hout hrow
  rw [time_by_domain, hg] at hout
  refine ⟨?_, hmem, ?_⟩
  · cases include_month with
    | true =>
      have hout2 : (groupRows true c
          (filtered_records rs domains subdomains date_start date_end)).insertionSort sortLeMonth
          = out := by injection hout
      rw [← hout2, (List.perm_insertionSort sortLeMonth _).length_eq, groupRows,
        List.length_map]
    | false =>
      have hout2 : (groupRows false c
          (filtered_records rs domains subdomains date_start date_end)).insertionSort sortLe
          = out := by injection hout
      rw [← hout2, (List.perm_insertionSort sortLe _).length_eq, groupRows,
        List.length_map]
  · intro hexcl
    have hfe := filtered_records_empty rs domains subdomains date_start date_end hexcl
    rw [hfe] at hout
    cases include_month with
    | true =>
      have hout2 : ((groupRows true c []).insertionSort sortLeMonth : List AggRow)
          = out := by injection hout
      rw [← hout2]
      rfl
    | false =>
      have hout2 : ((groupRows false c []).insertionSort sortLe : List AggRow)
          = out := by injection hout
      rw [← hout2]
      rfl

theorem claim_row_count_witness :
    (groupby_col (("domain").toList) = some GroupCol.domain) ∧
    (time_by_domain c7Records none none (("domain").toList) false (some 1000) (some 2000)
        = Except.ok []) ∧
    (([] : List AggRow).length = ((filtered_records c7Records none none (some 1000)
        (some 2000)).map (keyOf false GroupCol.domain)).dedup.length) ∧
    ((∀ r ∈ c7Records, ¬ in_date_range (some 1000) (some 2000) r.time_usec) → ([] : List AggRow) = []) :=
  ⟨by decide, by decide,
   (claim_row_count c7Records none none (("domain").toList) false (some 1000) (some 2000)
      GroupCol.domain [] (by decide) (by decide)).1,
   (claim_row_count c7Records none none (("domain").toList) false (some 1000) (some 2000)
      GroupCol.domain [] (by decide) (by decide)).2.2⟩
